import Mathlib

/-!
# Verification of the knowledge-base ingestion engine

A shallow embedding of the core synchronization engine of the
`knowledge_base_agent` repository:

* `src/src/file_tracker.py`   — `FileTracker` (load, should_ingest, update_file_status)
* `src/src/ingestion_manager.py` — `IngestionManager` (per-file pipeline, scan)
* `src/src/qdrant_manager.py` — `QdrantManager` (upload_chunks with its
  deterministic SHA-256 point ids, delete_points_by_file, get_collection_info)
* `src/src/document_processors.py` — `DocumentProcessor.chunk_document`

External collaborators (the filesystem, the PDF/text readers, the text
splitter, the embedding model, the Qdrant client calls) are modelled as
oracle fields of an `Env` record; everything the repository itself computes
is translated directly from the Python source.  Machine-level effects
(store calls, tracker status updates) are recorded as an explicit event
trace so that ordering and counting properties can be stated.

Timestamps (`os.path.getmtime`, `time.time()`) are modelled as `Int`;
only their ordering is ever used by the code.
-/

namespace KnowledgeBase

/-- `src/models.py` `IngestedFileInfo`: one tracker record. -/
structure FileInfo where
  file_path : String
  last_modified : Int
  ingested_at : Int
  status : String
  error_message : Option String
deriving DecidableEq, Repr

/-- The in-memory tracker table (`FileTracker.tracker`): a map from an
absolute path to its record, modelled extensionally. -/
def Table := String → Option FileInfo

/-- The empty tracker table. -/
def Table.empty : Table := fun _ => none

/-- A filesystem snapshot: for each path, `some mtime` when the file
exists with that modification time, `none` when it does not exist.
Models `os.path.exists` / `os.path.getmtime` together. -/
def FSModel := String → Option Int

/-- `FileTracker.should_ingest` (src/file_tracker.py lines 50–83),
translated clause by clause.  `abspath` models `os.path.abspath`
(an external, deterministic path canonicalization).  Returns the boolean
answer together with the (possibly updated) tracker table: the only
mutation the source performs is deleting the record of a vanished file. -/
def shouldIngest (abspath : String → String) (fs : FSModel)
    (t : Table) (file_path : String) : Bool × Table :=
  let file_abspath := abspath file_path
  match fs file_path with
  | none =>
      -- file does not exist: remove from tracker if present, return False
      (false, fun k => if k = file_abspath then none else t k)
  | some current_last_modified =>
      match t file_abspath with
      | none => (true, t)   -- file is NEW
      | some tracked_info =>
          if tracked_info.status ≠ "success" then (true, t)
          else if current_last_modified > tracked_info.last_modified then (true, t)
          else (false, t)

/-- `FileTracker.update_file_status` (src/file_tracker.py lines 85–99):
overwrites the record for the path's absolute form; `last_modified` is the
file's current mtime, falling back to `now` (`time.time()`) when the file
has vanished. -/
def updateFileStatus (abspath : String → String) (fs : FSModel) (now : Int)
    (t : Table) (file_path status : String) (error_message : Option String) : Table :=
  let file_abspath := abspath file_path
  let last_modified := (fs file_path).getD now
  fun k => if k = file_abspath then
    some { file_path := file_abspath, last_modified := last_modified,
           ingested_at := now, status := status, error_message := error_message }
  else t k

/-! ## Identity Assigner (`QdrantManager.upload_chunks`, lines 77–79)

The Python code computes, per chunk,
`int(hashlib.sha256(identifier.encode('utf-8')).hexdigest()[:16], 16)`
with `identifier = f"{source_file}_{page_number_or_empty}_{chunk_index}"`.
We embed SHA-256 (FIPS 180-4) over byte lists, with 32-bit words as `Nat`
reduced `% 2^32`. -/

/-- `2^32`, the SHA-256 word modulus. -/
def w32 : Nat := 4294967296

/-- Right rotation of a 32-bit word. -/
def rotr32 (n x : Nat) : Nat := ((x >>> n) ||| (x <<< (32 - n))) % w32

/-- SHA-256 round constants (cube-root fractional parts of the first 64
primes). -/
def sha256K : List Nat := [
  1116352408, 1899447441, 3049323471, 3921009573, 961987163,
  1508970993, 2453635748, 2870763221, 3624381080, 310598401,
  607225278, 1426881987, 1925078388, 2162078206, 2614888103,
  3248222580, 3835390401, 4022224774, 264347078, 604807628,
  770255983, 1249150122, 1555081692, 1996064986, 2554220882,
  2821834349, 2952996808, 3210313671, 3336571891, 3584528711,
  113926993, 338241895, 666307205, 773529912, 1294757372,
  1396182291, 1695183700, 1986661051, 2177026350, 2456956037,
  2730485921, 2820302411, 3259730800, 3345764771, 3516065817,
  3600352804, 4094571909, 275423344, 430227734, 506948616,
  659060556, 883997877, 958139571, 1322822218, 1537002063,
  1747873779, 1955562222, 2024104815, 2227730452, 2361852424,
  2428436474, 2756734187, 3204031479, 3329325298]

/-- The eight 32-bit words of the SHA-256 chaining state. -/
structure Hash8 where
  a : Nat
  b : Nat
  c : Nat
  d : Nat
  e : Nat
  f : Nat
  g : Nat
  h : Nat
deriving DecidableEq, Repr

/-- SHA-256 initial state (square-root fractional parts of the first 8
primes). -/
def sha256Init : Hash8 :=
  ⟨1779033703, 3144134277, 1013904242, 2773480762,
   1359893119, 2600822924, 528734635, 1541459225⟩

/-- One SHA-256 compression round, consuming one `(Kᵢ, Wᵢ)` pair. -/
def shaRound (st : Hash8) (kw : Nat × Nat) : Hash8 :=
  let s1 := rotr32 6 st.e ^^^ rotr32 11 st.e ^^^ rotr32 25 st.e
  let ch := (st.e &&& st.f) ^^^ ((st.e ^^^ 0xffffffff) &&& st.g)
  let t1 := (st.h + s1 + ch + kw.1 + kw.2) % w32
  let s0 := rotr32 2 st.a ^^^ rotr32 13 st.a ^^^ rotr32 22 st.a
  let mj := (st.a &&& st.b) ^^^ (st.a &&& st.c) ^^^ (st.b &&& st.c)
  let t2 := (s0 + mj) % w32
  ⟨(t1 + t2) % w32, st.a, st.b, st.c, (st.d + t1) % w32, st.e, st.f, st.g⟩

/-- σ₀ of the SHA-256 message schedule. -/
def smallSig0 (x : Nat) : Nat := rotr32 7 x ^^^ rotr32 18 x ^^^ (x >>> 3)

/-- σ₁ of the SHA-256 message schedule. -/
def smallSig1 (x : Nat) : Nat := rotr32 17 x ^^^ rotr32 19 x ^^^ (x >>> 10)

/-- Append the next scheduled word `Wₙ` to a schedule prefix of length
`n ≥ 16`. -/
def extendStep (ws : List Nat) : List Nat :=
  let n := ws.length
  ws ++ [(smallSig1 (ws.getD (n - 2) 0) + ws.getD (n - 7) 0 +
          smallSig0 (ws.getD (n - 15) 0) + ws.getD (n - 16) 0) % w32]

/-- Extend 16 block words to the 64-word message schedule. -/
def msgSchedule (w16 : List Nat) : List Nat := Nat.repeat extendStep 48 w16

/-- Group bytes into big-endian 32-bit words. -/
def toWords32 : List Nat → List Nat
  | b0 :: b1 :: b2 :: b3 :: rest =>
      (((b0 * 256 + b1) * 256 + b2) * 256 + b3) :: toWords32 rest
  | _ => []

/-- Process one 64-byte block. -/
def compressBlock (st : Hash8) (block : List Nat) : Hash8 :=
  let ws := msgSchedule (toWords32 block)
  let r := (sha256K.zip ws).foldl shaRound st
  ⟨(st.a + r.a) % w32, (st.b + r.b) % w32, (st.c + r.c) % w32, (st.d + r.d) % w32,
   (st.e + r.e) % w32, (st.f + r.f) % w32, (st.g + r.g) % w32, (st.h + r.h) % w32⟩

/-- Big-endian byte encoding of `n` on `k` bytes. -/
def beBytes : Nat → Nat → List Nat
  | 0, _ => []
  | k + 1, n => beBytes k (n / 256) ++ [n % 256]

/-- SHA-256 padding: `0x80`, zeros to 56 mod 64, 8-byte bit length. -/
def sha256Pad (msg : List Nat) : List Nat :=
  msg ++ [0x80] ++ List.replicate ((119 - msg.length % 64) % 64) 0 ++
    beBytes 8 (8 * msg.length)

/-- Split a byte list into 64-byte blocks (padded input always has a
length that is a multiple of 64). -/
def toBlocks (bs : List Nat) : List (List Nat) :=
  (List.range (bs.length / 64)).map (fun i => (bs.drop (64 * i)).take 64)

/-- Big-endian bytes of a 32-bit word. -/
def wordBytes (x : Nat) : List Nat :=
  [(x >>> 24) % 256, (x >>> 16) % 256, (x >>> 8) % 256, x % 256]

/-- SHA-256 digest of a byte list, as 32 bytes. -/
def sha256 (msg : List Nat) : List Nat :=
  let st := (toBlocks (sha256Pad msg)).foldl compressBlock sha256Init
  wordBytes st.a ++ wordBytes st.b ++ wordBytes st.c ++ wordBytes st.d ++
  wordBytes st.e ++ wordBytes st.f ++ wordBytes st.g ++ wordBytes st.h

/-- Lowercase hexadecimal digits. -/
def hexDigits : List Char := "0123456789abcdef".toList

/-- The hex character of a nibble. -/
def nibbleChar (n : Nat) : Char := hexDigits.getD n '0'

/-- `hashlib`'s `hexdigest`: two lowercase hex characters per byte. -/
def bytesToHex (bs : List Nat) : List Char :=
  (bs.map (fun b => [nibbleChar (b / 16), nibbleChar (b % 16)])).flatten

/-- Numeric value of a hex character (`0` for non-hex input, which never
occurs on a digest). -/
def hexCharVal (c : Char) : Nat :=
  if c = '1' then 1 else if c = '2' then 2 else if c = '3' then 3
  else if c = '4' then 4 else if c = '5' then 5 else if c = '6' then 6
  else if c = '7' then 7 else if c = '8' then 8 else if c = '9' then 9
  else if c = 'a' then 10 else if c = 'b' then 11 else if c = 'c' then 12
  else if c = 'd' then 13 else if c = 'e' then 14 else if c = 'f' then 15
  else 0

/-- Python's `int(s, 16)` on a hex string. -/
def parseHex (cs : List Char) : Nat := cs.foldl (fun a c => 16 * a + hexCharVal c) 0

/-- Big-endian value of a byte list. -/
def beNat (bs : List Nat) : Nat := bs.foldl (fun a b => 256 * a + b) 0

/-- UTF-8 encoding of one code point (`str.encode('utf-8')`, per
character). -/
def utf8Char (c : Char) : List Nat :=
  let n := c.toNat
  if n < 0x80 then [n]
  else if n < 0x800 then [0xC0 + (n >>> 6), 0x80 + (n &&& 0x3F)]
  else if n < 0x10000 then
    [0xE0 + (n >>> 12), 0x80 + ((n >>> 6) &&& 0x3F), 0x80 + (n &&& 0x3F)]
  else
    [0xF0 + (n >>> 18), 0x80 + ((n >>> 12) &&& 0x3F),
     0x80 + ((n >>> 6) &&& 0x3F), 0x80 + (n &&& 0x3F)]

/-- UTF-8 encoding of a string as a byte list. -/
def utf8Encode (s : String) : List Nat := (s.data.map utf8Char).flatten

/-- `metadata.get('page_number', '')` as rendered inside the f-string:
the decimal digits of the page number, or the empty string. -/
def pageRepr : Option Nat → String
  | some p => toString p
  | none => ""

/-- The `unique_chunk_identifier` f-string of `upload_chunks`. -/
def chunkIdentifier (source_file : String) (page_number : Option Nat)
    (chunk_index : Nat) : String :=
  source_file ++ "_" ++ pageRepr page_number ++ "_" ++ toString chunk_index

/-- The deterministic point id of `upload_chunks`:
`int(sha256(identifier.encode()).hexdigest()[:16], 16)`. -/
def deriveKey (source_file : String) (page_number : Option Nat)
    (chunk_index : Nat) : Nat :=
  parseHex ((bytesToHex (sha256 (utf8Encode
    (chunkIdentifier source_file page_number chunk_index)))).take 16)

/-! ## Document processing (`src/document_processors.py`) -/

/-- Characters after the last slash (`acc` holds the current component,
reversed). -/
def afterLastSlash : List Char → List Char → List Char
  | [], acc => acc.reverse
  | c :: rest, acc =>
      if c = '/' then afterLastSlash rest [] else afterLastSlash rest (c :: acc)

/-- `os.path.basename` for POSIX paths (the component after the last
slash). -/
def basename (p : String) : String := String.mk (afterLastSlash p.toList [])

/-- Python's `str.endswith`. -/
def strEndsWith (s suffix : String) : Bool :=
  decide (s.toList.reverse.take suffix.toList.length = suffix.toList.reverse)

/-- Helper for `extOf`: scans the characters; `seen` records whether a
non-dot character occurred before the current position, `acc` holds the
characters after the last extension-forming dot so far. -/
def extScan : List Char → Bool → Option (List Char) → Option (List Char)
  | [], _, acc => acc
  | c :: rest, seen, acc =>
      if c = '.' then extScan rest seen (if seen then some rest else acc)
      else extScan rest true acc

/-- `os.path.splitext(name)[1].lstrip('.')`: the extension after the last
dot, where leading dots of the name do not start an extension. -/
def extOf (name : String) : String :=
  match extScan name.toList false none with
  | some cs => String.mk cs
  | none => ""

/-- Python whitespace characters recognized by `str.strip()` (the ASCII
ones; the documents at hand contain no exotic Unicode whitespace). -/
def isPySpace (c : Char) : Bool :=
  c = ' ' || c = '\t' || c = '\n' || c = '\r' ||
  c = Char.ofNat 11 || c = Char.ofNat 12

/-- `not s.strip()`: every character is whitespace (including the empty
string). -/
def isBlank (s : String) : Bool := s.toList.all isPySpace

/-- Does the string contain `"\n\n"` as a substring (the PDF multi-page
heuristic of `chunk_document`)? -/
def hasDoubleNewline (s : String) : Bool := go s.toList where
  go : List Char → Bool
    | '\n' :: '\n' :: _ => true
    | _ :: rest => go rest
    | [] => false

/-- The metadata dictionary attached to each chunk by `chunk_document`.
Its keys are fixed by the source, so it is modelled as a record;
`page_number` is `none` exactly when the key is absent. -/
structure Metadata where
  source_file : String
  file_type : String
  chunk_index : Nat
  text_length : Nat
  page_number : Option Nat
  chunk_id : String
deriving DecidableEq, Repr

/-- `src/models.py` `DocumentChunk`. -/
structure DocumentChunk where
  text : String
  metadata : Metadata
deriving DecidableEq, Repr

/-- The chunks of one non-blank section, with the metadata of
`chunk_document`'s inner loop (`i` is the 0-based section position,
`j` the 0-based chunk index within the section). -/
def sectionChunks (file_name file_type : String) (is_multi_page : Bool)
    (i : Nat) (pieces : List String) : List DocumentChunk :=
  pieces.enum.map fun ji =>
    { text := ji.2,
      metadata :=
        { source_file := file_name,
          file_type := file_type,
          chunk_index := ji.1,
          text_length := ji.2.length,
          page_number := if is_multi_page then some (i + 1) else none,
          chunk_id :=
            if is_multi_page then
              file_name ++ "_p" ++ toString (i + 1) ++ "_" ++ toString ji.1
            else file_name ++ "_" ++ toString ji.1 } }

/-- The section loop of `chunk_document`: blank sections are skipped, the
splitter (`RecursiveCharacterTextSplitter.split_text`, an external
collaborator that may raise) is applied to each remaining section in
order; a raised exception propagates immediately. -/
def chunkSections (split : String → Except String (List String))
    (file_name file_type : String) (is_multi_page : Bool) :
    Nat → List String → Except String (List DocumentChunk)
  | _, [] => .ok []
  | i, sec :: rest =>
      if isBlank sec then chunkSections split file_name file_type is_multi_page (i + 1) rest
      else
        match split sec with
        | .error e => .error e
        | .ok pieces =>
            match chunkSections split file_name file_type is_multi_page (i + 1) rest with
            | .error e => .error e
            | .ok more => .ok (sectionChunks file_name file_type is_multi_page i pieces ++ more)

/-- `DocumentProcessor.chunk_document` (src/document_processors.py lines
43–75). -/
def chunkDocument (split : String → Except String (List String))
    (file_path : String) (text_content : List String) :
    Except String (List DocumentChunk) :=
  let file_name := basename file_path
  let file_type := extOf file_name
  let is_multi_page :=
    decide (text_content.length > 1) ||
      (decide (text_content.length = 1) &&
        hasDoubleNewline (text_content.getD 0 "") && decide (file_type = "pdf"))
  chunkSections split file_name file_type is_multi_page 0 text_content

/-! ## Vector Store Gateway (`src/qdrant_manager.py`) -/

/-- The payload stored with each point: the chunk's metadata dictionary
plus the added `"text"` field (`payload = metadata.copy(); payload["text"]
= chunk.text`). -/
structure Payload where
  meta : Metadata
  text : String
deriving DecidableEq, Repr

/-- A Qdrant `PointStruct`. Vector entries are opaque to the core; they
are modelled as integers. -/
structure PointStruct where
  id : Nat
  vector : List Int
  payload : Payload
deriving DecidableEq, Repr

/-- Observable external effects of the engine, recorded in order. -/
inductive Event where
  | getCollInfo
  | recreateCollection
  | deleteByFile (file_name : String)
  | embedTexts (texts : List String)
  | upsertPoints (points : List PointStruct)
  | updateStatus (path status : String) (error_message : Option String)
deriving DecidableEq, Repr

/-- `collections.CollectionInfo` as used by the code: only
`vectors_count` is consulted. -/
structure CollInfo where
  vectors_count : Option Nat
deriving DecidableEq, Repr

/-- The external world, fixed for one scan: the Qdrant client calls, the
format-specific extractors, the text splitter, the embedding model, the
filesystem and clock, and the directory listings. Every field is an
oracle for an out-of-scope collaborator; `.error` outcomes model raised
exceptions (carrying `str(e)`). -/
structure Env where
  clientGetCollection : Except String CollInfo
  clientDelete : String → Except String Unit
  clientUpsert : List PointStruct → Except String Unit
  extract : String → String → Except String (List String)
  split : String → Except String (List String)
  embed : List String → Except String (List (List Int))
  fs : FSModel
  abspath : String → String
  now : Int
  pdfFiles : List String
  txtFiles : List String

/-- `QdrantManager.get_collection_info` (lines 132–143): the underlying
client call is wrapped in `try/except Exception: return None`, so the
method never raises; an absent or inaccessible collection yields
`none`. -/
def getCollectionInfo (env : Env) : Option CollInfo :=
  match env.clientGetCollection with
  | .ok ci => some ci
  | .error _ => none

/-- Build the point for one `(embedding, chunk)` pair of
`upload_chunks`'s loop. -/
def mkPoint (ec : List Int × DocumentChunk) : PointStruct :=
  { id := deriveKey ec.2.metadata.source_file ec.2.metadata.page_number
            ec.2.metadata.chunk_index,
    vector := ec.1,
    payload := { meta := ec.2.metadata, text := ec.2.text } }

/-- `QdrantManager.upload_chunks` (lines 53–104): empty input returns 0
without touching the embedder or the store; otherwise the texts are
embedded in one batch, points are built by zipping embeddings with
chunks, and one `upsert` call is issued; on success the count of
submitted points is returned. Raised exceptions (from the embedder or
the upsert) propagate to the caller. The returned trace records the
calls that were issued. -/
def uploadChunks (embed : List String → Except String (List (List Int)))
    (clientUpsert : List PointStruct → Except String Unit)
    (chunks : List DocumentChunk) : Except String Nat × List Event :=
  if chunks.isEmpty then (.ok 0, [])
  else
    let texts_to_embed := chunks.map (·.text)
    match embed texts_to_embed with
    | .error e => (.error e, [.embedTexts texts_to_embed])
    | .ok embeddings =>
        let points_to_upsert := (embeddings.zip chunks).map mkPoint
        match clientUpsert points_to_upsert with
        | .error e =>
            (.error e, [.embedTexts texts_to_embed, .upsertPoints points_to_upsert])
        | .ok _ =>
            (.ok points_to_upsert.length,
             [.embedTexts texts_to_embed, .upsertPoints points_to_upsert])

/-! ## Ingestion Orchestrator (`src/ingestion_manager.py`) -/

/-- The reconciliation guard of `_process_and_ingest_single_document`
(lines 55–61): previous status `"success"` for the absolute path and a
collection-info answer with a positive `vectors_count`. -/
def deleteCond (t : Table) (file_abspath : String) (ci : Option CollInfo) : Bool :=
  (match t file_abspath with
   | some r => decide (r.status = "success")
   | none => false) &&
  (match ci with
   | some c =>
       match c.vectors_count with
       | some n => decide (0 < n)
       | none => false
   | none => false)

/-- Steps 1–3 of the `try` block of
`_process_and_ingest_single_document` (lines 63–88): extraction,
emptiness check, chunking, chunk-count check, embed-and-upload, upload
count comparison. Returns the `(ingestion_status, error_message)` pair
and the trace of store calls issued by these steps. Any `.error` outcome
of a collaborator call is the `except Exception` path, producing status
`"failed"` with the exception's message. -/
def pipelineRest (env : Env) (file_path file_type : String) :
    String × Option String × List Event :=
  match env.extract file_type file_path with
  | .error e => ("failed", some e, [])
  | .ok extracted_text_content =>
      if extracted_text_content.isEmpty || extracted_text_content.all isBlank then
        ("skipped_empty", some "No text extracted or extracted text was empty.", [])
      else
        match chunkDocument env.split file_path extracted_text_content with
        | .error e => ("failed", some e, [])
        | .ok document_chunks =>
            if document_chunks.isEmpty then
              ("skipped_no_chunks", some "No chunks generated from extracted text.", [])
            else
              match uploadChunks env.embed env.clientUpsert document_chunks with
              | (.error e, uev) => ("failed", some e, uev)
              | (.ok uploaded_count, uev) =>
                  if uploaded_count = document_chunks.length then
                    ("success", none, uev)
                  else
                    ("failed",
                     some ("Mismatch in uploaded chunks count. Expected " ++
                       toString document_chunks.length ++ ", got " ++
                       toString uploaded_count ++ "."),
                     uev)

/-- The whole `try` block of `_process_and_ingest_single_document`
(lines 50–92): the `get_collection_info` health check, the conditional
stale-point delete (whose raised exception also lands in the `except`
path), then `pipelineRest`. -/
def pipelineCore (env : Env) (t : Table) (file_path file_type : String) :
    String × Option String × List Event :=
  let file_name := basename file_path
  let file_abspath := env.abspath file_path
  let ci := getCollectionInfo env
  let ev0 : List Event := [.getCollInfo]
  if deleteCond t file_abspath ci then
    match env.clientDelete file_name with
    | .error e => ("failed", some e, ev0 ++ [.deleteByFile file_name])
    | .ok _ =>
        match pipelineRest env file_path file_type with
        | (st, err, ev) => (st, err, ev0 ++ [.deleteByFile file_name] ++ ev)
  else
    match pipelineRest env file_path file_type with
    | (st, err, ev) => (st, err, ev0 ++ ev)

/-- `IngestionManager._process_and_ingest_single_document` (lines 33–96)
in full: processor dispatch (the `processors` dict has exactly the keys
`"pdf"` and `"txt"`), the `try` body, and the `finally` block that calls
`update_file_status` exactly once with the terminal status. -/
def processFile (env : Env) (t : Table) (file_path file_type : String) :
    List Event × Table :=
  if file_type = "pdf" || file_type = "txt" then
    match pipelineCore env t file_path file_type with
    | (st, err, ev) =>
        (ev ++ [.updateStatus file_path st err],
         updateFileStatus env.abspath env.fs env.now t file_path st err)
  else
    let msg := some ("No processor for type '" ++ file_type ++ "'")
    ([.updateStatus file_path "failed" msg],
     updateFileStatus env.abspath env.fs env.now t file_path "failed" msg)

/-- `data/pdfs` (`PDF_DIR`). -/
def PDF_DIR : String := "data/pdfs"

/-- `data/texts` (`TEXT_DIR`). -/
def TEXT_DIR : String := "data/texts"

/-- The candidate files of one scan, in scan order: the PDF directory
listing filtered by the `.pdf` suffix, then the text directory listing
filtered by `.txt`, each paired with its processor tag. -/
def scanFiles (env : Env) : List (String × String) :=
  (env.pdfFiles.filter (strEndsWith · ".pdf")).map (fun f => (PDF_DIR ++ "/" ++ f, "pdf")) ++
  (env.txtFiles.filter (strEndsWith · ".txt")).map (fun f => (TEXT_DIR ++ "/" ++ f, "txt"))

/-- One iteration of the scan loops: the `should_ingest` entry guard,
then (on `true`) the per-file pipeline. -/
def scanStep (env : Env) (acc : List Event × Table) (pf : String × String) :
    List Event × Table :=
  let (ev, t) := acc
  let (b, t1) := shouldIngest env.abspath env.fs t pf.1
  if b then
    let (ev2, t2) := processFile env t1 pf.1 pf.2
    (ev ++ ev2, t2)
  else (ev, t1)

/-- `IngestionManager.run_ingestion_scan` (lines 99–129). The collection
setup calls `get_collection_info` inside `try/except`; since
`get_collection_info` itself swallows every exception and returns `None`,
the `except` branch (which would call `recreate_collection`) can never
execute, so no `recreateCollection` event is ever emitted. The scan ends
with a final `get_collection_info` for the stats log. -/
def runScan (env : Env) (t : Table) : List Event × Table :=
  let setup : List Event := [.getCollInfo]
  let (ev, t') := (scanFiles env).foldl (scanStep env) (setup, t)
  (ev ++ [.getCollInfo], t')

/-! ## Tracker loading (`FileTracker._load_tracker`, lines 18–35) -/

/-- A minimal JSON value, the shape `json.load` can produce. -/
inductive Json where
  | null
  | bool (b : Bool)
  | num (n : Int)
  | str (s : String)
  | arr (xs : List Json)
  | obj (fields : List (String × Json))

/-- `IngestedFileInfo(**v)`: pydantic validation of one record object.
Requires an object with the model's required fields at their declared
types; `error_message` may be absent or `null`. Any other shape raises a
validation error (`none`). -/
def decodeInfo : Json → Option FileInfo
  | .obj fields =>
      let get : String → Option Json := fun k => (fields.find? (fun p => decide (p.1 = k))).map (·.2)
      match get "file_path", get "last_modified", get "ingested_at", get "status" with
      | some (.str fp), some (.num lm), some (.num ia), some (.str st) =>
          match get "error_message" with
          | none => some ⟨fp, lm, ia, st, none⟩
          | some .null => some ⟨fp, lm, ia, st, none⟩
          | some (.str e) => some ⟨fp, lm, ia, st, some e⟩
          | some _ => none
      | _, _, _, _ => none
  | _ => none

/-- `{k: IngestedFileInfo(**v) for k, v in data.items()}`: requires the
top-level value to be an object (otherwise `.items()` raises) and every
value to validate. -/
def decodeRecords : Json → Option (List (String × FileInfo))
  | .obj fields =>
      fields.foldr (fun kv acc =>
        match decodeInfo kv.2, acc with
        | some info, some rest => some ((kv.1, info) :: rest)
        | _, _ => none) (some [])
  | _ => none

/-- A tracker table from decoded records (first binding wins, as later
`dict` keys are unique in JSON objects produced by `json.load`). -/
def tableOfList (recs : List (String × FileInfo)) : Table :=
  fun k => (recs.find? (fun p => p.1 = k)).map (·.2)

/-- The persisted tracker file as seen at startup: absent, present but
not syntactically valid JSON (`json.load` raises `JSONDecodeError`), or
present with a parsed JSON value. The parse itself is the stdlib's. -/
inductive TrackerFile where
  | absent
  | invalidJson
  | parsed (j : Json)

/-- `FileTracker._load_tracker`: returns the initial table and whether
the on-disk file was renamed to the `.bak` backup. The rename happens
only in the `except json.JSONDecodeError` branch; the generic
`except Exception` branch (e.g. a pydantic validation error, or
`.items()` on a non-object) returns an empty table without any backup. -/
def loadTracker : TrackerFile → Table × Bool
  | .absent => (Table.empty, false)
  | .invalidJson => (Table.empty, true)
  | .parsed j =>
      match decodeRecords j with
      | some recs => (tableOfList recs, false)
      | none => (Table.empty, false)

/-! ## Trace helpers (formalization devices for the claims; not source
translations) -/

/-- Is the event an upsert call? -/
def isUpsert : Event → Bool
  | .upsertPoints _ => true
  | _ => false

/-- Is the event a delete-by-source call? -/
def isDelete : Event → Bool
  | .deleteByFile _ => true
  | _ => false

/-- Is the event an embed call? -/
def isEmbed : Event → Bool
  | .embedTexts _ => true
  | _ => false

/-- Is the event a collection recreation? -/
def isRecreate : Event → Bool
  | .recreateCollection => true
  | _ => false

/-- Is the event a tracker status update? -/
def isUpdateStatus : Event → Bool
  | .updateStatus _ _ _ => true
  | _ => false

/-- Every delete call precedes every upsert call: from the first upsert
on, no delete occurs. -/
def deletesPrecedeUpserts (tr : List Event) : Bool :=
  (tr.dropWhile (fun e => !isUpsert e)).all (fun e => !isDelete e)

/-- The terminal `(ingestion_status, error_message)` pair recorded for a
file by `_process_and_ingest_single_document` (the values passed to
`update_file_status` in the `finally` block, or in the missing-processor
early return). -/
def fileOutcome (env : Env) (t : Table) (file_path file_type : String) :
    String × Option String :=
  if file_type = "pdf" || file_type = "txt" then
    ((pipelineCore env t file_path file_type).1,
     (pipelineCore env t file_path file_type).2.1)
  else ("failed", some ("No processor for type '" ++ file_type ++ "'"))

/-! ## Concrete fixtures for witnesses and counterexamples -/

/-- A fully healthy world with one text file `data/texts/a.txt` of mtime 5
containing one section that splits into one chunk. -/
def okEnv : Env :=
  { clientGetCollection := .ok ⟨some 0⟩
    clientDelete := fun _ => .ok ()
    clientUpsert := fun _ => .ok ()
    extract := fun _ _ => .ok ["Hello world."]
    split := fun s => .ok [s]
    embed := fun ts => .ok (ts.map (fun _ => [1]))
    fs := fun p => if p = "data/texts/a.txt" then some 5 else none
    abspath := id
    now := 100
    pdfFiles := []
    txtFiles := ["a.txt"] }

/-- `okEnv` with a transiently failing store upsert. -/
def upsertFailEnv : Env := { okEnv with clientUpsert := fun _ => .error "boom" }

/-- `okEnv` but the collection does not exist: the raw client call
raises. -/
def collMissingEnv : Env :=
  { okEnv with clientGetCollection := .error "collection does not exist" }

/-- `okEnv` with a deterministically failing extractor. -/
def extractFailEnv : Env :=
  { okEnv with extract := fun _ _ => .error "extraction exploded" }

/-- `okEnv` with a non-empty collection (3 points), for re-ingestion
scenarios. -/
def reingestEnv : Env := { okEnv with clientGetCollection := .ok ⟨some 3⟩ }

/-- A tracker with a previous `"success"` record for `data/texts/a.txt`
at mtime 3 (older than the file's current mtime 5). -/
def reingestTable : Table := fun k =>
  if k = "data/texts/a.txt" then some ⟨"data/texts/a.txt", 3, 3, "success", none⟩
  else none

/-- C1: vanished-file cleanup and the three re-ingestion conditions of
`should_ingest`.  If the file is gone, the record for its absolute form is
removed and the answer is `false`; if the file exists, the answer is `true`
exactly when there is no record, or the record's status is not `"success"`,
or the current mtime exceeds the recorded `last_modified`. -/
theorem shouldIngest_correct (abspath : String → String) (fs : FSModel)
    (t : Table) (p : String) :
    (fs p = none →
      (shouldIngest abspath fs t p).1 = false ∧
      (shouldIngest abspath fs t p).2 (abspath p) = none) ∧
    (∀ m : Int, fs p = some m →
      ((shouldIngest abspath fs t p).1 = true ↔
        t (abspath p) = none ∨
        (∃ r, t (abspath p) = some r ∧ (r.status ≠ "success" ∨ m > r.last_modified)))) := by
  constructor
  · intro hnone
    unfold shouldIngest
    rw [hnone]
    exact ⟨rfl, by simp⟩
  · intro m hm
    unfold shouldIngest
    rw [hm]
    cases hrec : t (abspath p) with
    | none => simp [hrec]
    | some r =>
        simp only [hrec]
        by_cases hs : r.status = "success"
        · by_cases hlt : m > r.last_modified
          · simp [hs, hlt]
          · simp [hs, hlt]
        · simp [hs]

/-- Witness for `shouldIngest_correct` at a concrete state: a one-record
tracker whose file has vanished, and a fresh file with no record. -/
theorem shouldIngest_correct_witness :
    ((shouldIngest id (fun p => if p = "data/texts/a.txt" then some 5 else none)
        (fun k => if k = "data/texts/gone.txt"
          then some ⟨"data/texts/gone.txt", 3, 3, "success", none⟩ else none)
        "data/texts/gone.txt").1 = false ∧
      (shouldIngest id (fun p => if p = "data/texts/a.txt" then some 5 else none)
        (fun k => if k = "data/texts/gone.txt"
          then some ⟨"data/texts/gone.txt", 3, 3, "success", none⟩ else none)
        "data/texts/gone.txt").2 "data/texts/gone.txt" = none) ∧
    (shouldIngest id (fun p => if p = "data/texts/a.txt" then some 5 else none)
        Table.empty "data/texts/a.txt").1 = true := by
  refine ⟨(shouldIngest_correct id _ _ _).1 (by simp), ?_⟩
  have h := ((shouldIngest_correct id
      (fun p => if p = "data/texts/a.txt" then some 5 else none)
      Table.empty "data/texts/a.txt").2 5 (by simp)).mpr
  exact h (Or.inl rfl)

/-! ## Trace-shape lemmas -/

/-- The trace of one `upload_chunks` call: nothing, a lone embed call, or
an embed call followed by one upsert call. -/
theorem uploadChunks_trace_shape (e : List String → Except String (List (List Int)))
    (u : List PointStruct → Except String Unit) (cs : List DocumentChunk) :
    (uploadChunks e u cs).2 = [] ∨
    (∃ texts, (uploadChunks e u cs).2 = [.embedTexts texts]) ∨
    (∃ texts pts, (uploadChunks e u cs).2 = [.embedTexts texts, .upsertPoints pts]) := by
  unfold uploadChunks
  by_cases h : cs.isEmpty
  · simp [h]
  · simp only [h, Bool.false_eq_true, if_false]
    cases he : e (cs.map (·.text)) with
    | error err => simp
    | ok embeddings =>
        cases hu : u ((embeddings.zip cs).map mkPoint) <;> simp [hu]

/-- The trace of `pipelineRest` is an `upload_chunks` trace. -/
theorem pipelineRest_trace_shape (env : Env) (fp ft : String) :
    (pipelineRest env fp ft).2.2 = [] ∨
    (∃ texts, (pipelineRest env fp ft).2.2 = [.embedTexts texts]) ∨
    (∃ texts pts, (pipelineRest env fp ft).2.2 = [.embedTexts texts, .upsertPoints pts]) := by
  unfold pipelineRest
  cases hex : env.extract ft fp with
  | error e => simp
  | ok secs =>
      by_cases hempty : secs.isEmpty || secs.all isBlank
      · simp [hempty]
      · simp only [hempty, Bool.false_eq_true, if_false]
        cases hch : chunkDocument env.split fp secs with
        | error e => simp
        | ok chunks =>
            by_cases hce : chunks.isEmpty
            · simp [hce]
            · simp only [hce, Bool.false_eq_true, if_false]
              rcases hup : uploadChunks env.embed env.clientUpsert chunks with ⟨r, uev⟩
              have := uploadChunks_trace_shape env.embed env.clientUpsert chunks
              rw [hup] at this
              cases r with
              | error e => simpa using this
              | ok n =>
                  by_cases hn : n = chunks.length
                  · simpa [hn] using this
                  · simpa [hn] using this

/-- The trace of the `try` block: the health check, the conditional
delete, then an `upload_chunks` trace. -/
theorem pipelineCore_trace_shape (env : Env) (t : Table) (fp ft : String) :
    ∃ tail : List Event,
      (pipelineCore env t fp ft).2.2 =
        Event.getCollInfo ::
          ((if deleteCond t (env.abspath fp) (getCollectionInfo env)
            then [Event.deleteByFile (basename fp)] else []) ++ tail) ∧
      (tail = [] ∨ (∃ texts, tail = [.embedTexts texts]) ∨
        (∃ texts pts, tail = [.embedTexts texts, .upsertPoints pts])) := by
  unfold pipelineCore
  by_cases hdc : deleteCond t (env.abspath fp) (getCollectionInfo env)
  · simp only [hdc, if_true]
    cases hcd : env.clientDelete (basename fp) with
    | error e => exact ⟨[], by simp, Or.inl rfl⟩
    | ok _ =>
        rcases hpr : pipelineRest env fp ft with ⟨st, err, ev⟩
        have := pipelineRest_trace_shape env fp ft
        rw [hpr] at this
        exact ⟨ev, by simp, this⟩
  · simp only [hdc, if_false]
    rcases hpr : pipelineRest env fp ft with ⟨st, err, ev⟩
    have := pipelineRest_trace_shape env fp ft
    rw [hpr] at this
    exact ⟨ev, by simp, this⟩

/-- Count and ordering facts about the `try`-block trace: no collection
recreation, no status update, the delete count is exactly the
reconciliation guard, every delete targets the file's base name, and
deletes precede upserts even after the trailing status-update event is
appended. -/
theorem pipelineCore_counts (env : Env) (t : Table) (fp ft : String) :
    (pipelineCore env t fp ft).2.2.countP isRecreate = 0 ∧
    (pipelineCore env t fp ft).2.2.countP isUpdateStatus = 0 ∧
    (pipelineCore env t fp ft).2.2.countP isDelete =
      (if deleteCond t (env.abspath fp) (getCollectionInfo env) then 1 else 0) ∧
    (pipelineCore env t fp ft).2.2.countP
        (fun ev => decide (ev = Event.deleteByFile (basename fp))) =
      (if deleteCond t (env.abspath fp) (getCollectionInfo env) then 1 else 0) ∧
    (∀ s e, deletesPrecedeUpserts
      ((pipelineCore env t fp ft).2.2 ++ [Event.updateStatus fp s e]) = true) := by
  obtain ⟨tail, htr, hshape⟩ := pipelineCore_trace_shape env t fp ft
  rw [htr]
  by_cases hdc : deleteCond t (env.abspath fp) (getCollectionInfo env) <;>
    rcases hshape with rfl | ⟨texts, rfl⟩ | ⟨texts, pts, rfl⟩ <;>
      simp [hdc, List.countP_cons, List.countP_append, isRecreate, isUpdateStatus,
        isDelete, isUpsert, deletesPrecedeUpserts, List.dropWhile]

/-- `processFile` appends exactly one `updateStatus` event carrying the
terminal outcome, and updates the tracker with that same outcome. -/
theorem processFile_trace_eq (env : Env) (t : Table) (fp ft : String) :
    (processFile env t fp ft).1 =
      (if ft = "pdf" || ft = "txt" then (pipelineCore env t fp ft).2.2 else []) ++
        [.updateStatus fp (fileOutcome env t fp ft).1 (fileOutcome env t fp ft).2] ∧
    (processFile env t fp ft).2 =
      updateFileStatus env.abspath env.fs env.now t fp (fileOutcome env t fp ft).1
        (fileOutcome env t fp ft).2 := by
  by_cases hft : (ft = "pdf" || ft = "txt") = true
  · constructor <;> simp [processFile, fileOutcome, hft]
  · constructor <;> simp [processFile, fileOutcome, hft]

/-- `processFile` never emits a collection-recreation event. -/
theorem processFile_no_recreate (env : Env) :
    ∀ (t : Table) (fp ft : String),
      (processFile env t fp ft).1.countP isRecreate = 0 := by
  intro t fp ft
  obtain ⟨h1, _⟩ := processFile_trace_eq env t fp ft
  rw [h1, List.countP_append]
  obtain ⟨hrec, -⟩ := pipelineCore_counts env t fp ft
  by_cases hft : (ft = "pdf" || ft = "txt") = true <;>
    simp [hft, hrec, isRecreate, List.countP_cons]

/-- One scan iteration preserves the count of any event kind that
`processFile` never emits. -/
theorem scanStep_countP (env : Env) (p : Event → Bool)
    (hpf : ∀ (t : Table) (fp ft : String), (processFile env t fp ft).1.countP p = 0)
    (acc : List Event × Table) (pf : String × String) :
    ((scanStep env acc pf).1).countP p = acc.1.countP p := by
  obtain ⟨ev, t⟩ := acc
  simp only [scanStep]
  rcases hsi : shouldIngest env.abspath env.fs t pf.1 with ⟨b, t1⟩
  cases b
  · simp
  · rcases hpr : processFile env t1 pf.1 pf.2 with ⟨ev2, t2⟩
    have h0 := hpf t1 pf.1 pf.2
    rw [hpr] at h0
    simp [hpr, List.countP_append, h0]

/-- Folding the scan over a file list preserves such counts. -/
theorem foldl_scanStep_countP (env : Env) (p : Event → Bool)
    (hpf : ∀ (t : Table) (fp ft : String), (processFile env t fp ft).1.countP p = 0) :
    ∀ (files : List (String × String)) (acc : List Event × Table),
      ((files.foldl (scanStep env) acc).1).countP p = acc.1.countP p := by
  intro files
  induction files with
  | nil => intro acc; rfl
  | cons q rest ih =>
      intro acc
      rw [List.foldl_cons, ih, scanStep_countP env p hpf]

/-! ## Claim C5 -/

/-- C5: the claim states that a scan whose target collection does not
exist (or is inaccessible) creates it before any file is processed. The
code cannot do this: `get_collection_info` swallows every exception and
returns `None`, so the `except` branch of `run_ingestion_scan` that
calls `recreate_collection` is unreachable. First conjunct: no scan, in
any environment, ever emits a collection-recreation call. Remaining
conjuncts: in the concrete environment `collMissingEnv`, the collection
lookup reports the collection missing (`getCollectionInfo = none`), yet
the scan still processes a file (one status update) and never creates
the collection. -/
theorem runScan_collection_creation_unreachable :
    (∀ (env : Env) (t : Table), ((runScan env t).1).countP isRecreate = 0) ∧
    getCollectionInfo collMissingEnv = none ∧
    ((runScan collMissingEnv Table.empty).1).countP isRecreate = 0 ∧
    ((runScan collMissingEnv Table.empty).1).countP isUpdateStatus = 1 := by
  refine ⟨?_, rfl, ?_, ?_⟩
  · intro env t
    have h : (runScan env t).1 =
        ((scanFiles env).foldl (scanStep env) ([Event.getCollInfo], t)).1 ++
          [Event.getCollInfo] := rfl
    rw [h, List.countP_append,
      foldl_scanStep_countP env isRecreate (processFile_no_recreate env)]
    simp [isRecreate, List.countP_cons]
  · set_option maxRecDepth 100000 in decide
  · set_option maxRecDepth 100000 in decide

/-! ## Claim C10 -/

/-- C10: `upload_chunks` on an empty chunk list returns 0 and issues
neither an embedding call nor a store upsert call. -/
theorem uploadChunks_empty_noop (e : List String → Except String (List (List Int)))
    (u : List PointStruct → Except String Unit) :
    uploadChunks e u [] = (.ok 0, []) ∧
    (uploadChunks e u []).2.countP isEmbed = 0 ∧
    (uploadChunks e u []).2.countP isUpsert = 0 :=
  ⟨rfl, rfl, rfl⟩

/-! ## Claim C7 -/

/-- C7 counterexample: the persisted content `[]` (a JSON array) is
syntactically valid JSON that cannot be reconstructed into records
(`data.items()` raises, landing in the generic `except Exception`
branch), yet `_load_tracker` makes **no** backup — refuting the claim
that every malformed-content load preserves the data under a backup
name. -/
theorem loadTracker_malformed_without_backup :
    decodeRecords (Json.arr []) = none ∧
    (loadTracker (TrackerFile.parsed (Json.arr []))).2 = false ∧
    (loadTracker (TrackerFile.parsed (Json.arr []))).1 "data/texts/a.txt" = none :=
  ⟨rfl, rfl, rfl⟩

/-- C7 (amended): a missing tracker file yields an empty table with no
backup; a file that is not syntactically valid JSON is backed up and the
table starts empty; a file with valid JSON that cannot be reconstructed
into records yields an empty table **without** a backup; decodable
content is loaded as-is, and no case raises (the function is total). -/
theorem loadTracker_startup_behavior :
    ((∀ k, (loadTracker .absent).1 k = none) ∧ (loadTracker .absent).2 = false) ∧
    ((∀ k, (loadTracker .invalidJson).1 k = none) ∧ (loadTracker .invalidJson).2 = true) ∧
    (∀ j, decodeRecords j = none →
      (∀ k, (loadTracker (.parsed j)).1 k = none) ∧ (loadTracker (.parsed j)).2 = false) ∧
    (∀ j recs, decodeRecords j = some recs →
      (∀ k, (loadTracker (.parsed j)).1 k = tableOfList recs k) ∧
        (loadTracker (.parsed j)).2 = false) := by
  refine ⟨⟨fun k => rfl, rfl⟩, ⟨fun k => rfl, rfl⟩, ?_, ?_⟩
  · intro j hj
    simp [loadTracker, hj]
    intro k
    rfl
  · intro j recs hj
    simp [loadTracker, hj]

/-- Witness for `loadTracker_startup_behavior` at the concrete undecodable
value `[1]`. -/
theorem loadTracker_startup_behavior_witness :
    (loadTracker (TrackerFile.parsed (Json.arr [Json.num 1]))).2 = false ∧
    (loadTracker (TrackerFile.parsed (Json.arr [Json.num 1]))).1 "x" = none :=
  ⟨(loadTracker_startup_behavior.2.2.1 (Json.arr [Json.num 1]) rfl).2,
   (loadTracker_startup_behavior.2.2.1 (Json.arr [Json.num 1]) rfl).1 "x"⟩

/-! ## Claim C4 -/

/-- Round-trip of one nibble through the hex alphabet. -/
theorem hexCharVal_nibbleChar : ∀ n, n < 16 → hexCharVal (nibbleChar n) = n := by
  decide

/-- Each byte produced by `wordBytes` is below 256. -/
theorem wordBytes_lt (x : Nat) : ∀ b ∈ wordBytes x, b < 256 := by
  intro b hb
  simp [wordBytes] at hb
  rcases hb with rfl | rfl | rfl | rfl <;> exact Nat.mod_lt _ (by norm_num)

/-- Each digest byte is below 256. -/
theorem sha256_bytes_lt (msg : List Nat) : ∀ b ∈ sha256 msg, b < 256 := by
  intro b hb
  unfold sha256 at hb
  simp only [List.mem_append] at hb
  rcases hb with ((((((h | h) | h) | h) | h) | h) | h) | h <;> exact wordBytes_lt _ _ h

/-- Parsing the first `2·k` hex characters of a hexdigest equals the
big-endian value of the first `k` digest bytes (generalized over the
accumulator). -/
theorem parseHex_bytesToHex (bs : List Nat) (hbs : ∀ b ∈ bs, b < 256) :
    ∀ (k acc : Nat),
      ((bytesToHex bs).take (2 * k)).foldl (fun a c => 16 * a + hexCharVal c) acc =
      (bs.take k).foldl (fun a b => 256 * a + b) acc := by
  induction bs with
  | nil => intro k acc; simp [bytesToHex]
  | cons b t ih =>
      intro k acc
      cases k with
      | zero => simp
      | succ k' =>
          have hb : b < 256 := hbs b (by simp)
          have hhi : hexCharVal (nibbleChar (b / 16)) = b / 16 :=
            hexCharVal_nibbleChar _ (by omega)
          have hlo : hexCharVal (nibbleChar (b % 16)) = b % 16 :=
            hexCharVal_nibbleChar _ (Nat.mod_lt _ (by norm_num))
          have hbt : bytesToHex (b :: t) =
              nibbleChar (b / 16) :: nibbleChar (b % 16) :: bytesToHex t := rfl
          rw [hbt, show 2 * (k' + 1) = 2 * k' + 1 + 1 by ring]
          simp only [List.take_succ_cons, List.foldl_cons]
          rw [hhi, hlo, show 16 * (16 * acc + b / 16) + b % 16 = 256 * acc + b by omega]
          exact ih (fun x hx => hbs x (List.mem_cons_of_mem _ hx)) k' (256 * acc + b)

/-- The big-endian value of a byte list is bounded by `256^length`
(generalized over the accumulator). -/
theorem beNat_foldl_lt (l : List Nat) :
    ∀ acc, (∀ b ∈ l, b < 256) →
      l.foldl (fun a b => 256 * a + b) acc < (acc + 1) * 256 ^ l.length := by
  induction l with
  | nil => intro acc _; simp
  | cons b t ih =>
      intro acc h
      have hb : b < 256 := h b (by simp)
      have hrec := ih (256 * acc + b) (fun x hx => h x (List.mem_cons_of_mem _ hx))
      simp only [List.foldl_cons, List.length_cons]
      calc t.foldl (fun a b => 256 * a + b) (256 * acc + b)
          < (256 * acc + b + 1) * 256 ^ t.length := hrec
        _ ≤ (256 * (acc + 1)) * 256 ^ t.length :=
            Nat.mul_le_mul_right _ (by omega)
        _ = (acc + 1) * 256 ^ (t.length + 1) := by ring

/-- C4: the store key is a pure, deterministic function of the triple
`(source_id, section_index-or-empty, segment_index)` — two evaluations on
equal triples give equal integers (in the embedding there is no other
state the result could depend on) — and the key is exactly the SHA-256
digest of the UTF-8 encoding of the delimiter-separated identifier,
truncated to its first 64 bits (first 16 hex characters = first 8 bytes),
read as an unsigned (big-endian) integer below `2^64`. -/
theorem deriveKey_deterministic :
    (∀ s₁ p₁ c₁ s₂ p₂ c₂, s₁ = s₂ → p₁ = p₂ → c₁ = c₂ →
      deriveKey s₁ p₁ c₁ = deriveKey s₂ p₂ c₂) ∧
    (∀ s p c,
      deriveKey s p c = beNat ((sha256 (utf8Encode (chunkIdentifier s p c))).take 8) ∧
      deriveKey s p c < 2 ^ 64) := by
  constructor
  · intro s₁ p₁ c₁ s₂ p₂ c₂ hs hp hc
    subst hs; subst hp; subst hc; rfl
  · intro s p c
    have hlt := sha256_bytes_lt (utf8Encode (chunkIdentifier s p c))
    have hspec := parseHex_bytesToHex (sha256 (utf8Encode (chunkIdentifier s p c))) hlt 8 0
    norm_num at hspec
    have hmain : deriveKey s p c =
        beNat ((sha256 (utf8Encode (chunkIdentifier s p c))).take 8) := by
      unfold deriveKey parseHex beNat
      exact hspec
    refine ⟨hmain, ?_⟩
    rw [hmain]
    have hlen : ((sha256 (utf8Encode (chunkIdentifier s p c))).take 8).length ≤ 8 := by
      simp [List.length_take]
    have hbnd : ∀ b ∈ (sha256 (utf8Encode (chunkIdentifier s p c))).take 8, b < 256 :=
      fun b hb => hlt b (List.mem_of_mem_take hb)
    have hlt2 := beNat_foldl_lt _ 0 hbnd
    calc beNat ((sha256 (utf8Encode (chunkIdentifier s p c))).take 8)
        < (0 + 1) * 256 ^ ((sha256 (utf8Encode (chunkIdentifier s p c))).take 8).length :=
          hlt2
      _ = 256 ^ ((sha256 (utf8Encode (chunkIdentifier s p c))).take 8).length := by ring
      _ ≤ 256 ^ 8 := Nat.pow_le_pow_right (by norm_num) hlen
      _ = 2 ^ 64 := by norm_num

/-- Witness for `deriveKey_deterministic` at a concrete triple. -/
theorem deriveKey_deterministic_witness :
    deriveKey "a.txt" none 0 = deriveKey "a.txt" none 0 ∧
    deriveKey "a.txt" none 0 < 2 ^ 64 :=
  ⟨deriveKey_deterministic.1 "a.txt" none 0 "a.txt" none 0 rfl rfl rfl,
   (deriveKey_deterministic.2 "a.txt" none 0).2⟩

/-! ## Claim C2 -/

/-- C2: for every file entering the per-file pipeline (the scan only
dispatches the known processor tags), the count of
`delete_points_by_file` calls targeting the file's base name — and of
delete calls altogether — is exactly one when the entry tracker record
has status `"success"` and the collection stats report a positive point
count (`deleteCond`), and zero in every other case (no record,
non-success status, absent stats, zero/unknown count); and every delete
precedes every upsert of the file's new chunks. -/
theorem processFile_delete_reconciliation (env : Env) (t : Table) (fp ft : String)
    (hft : ft = "pdf" ∨ ft = "txt") :
    ((processFile env t fp ft).1.countP
        (fun ev => decide (ev = Event.deleteByFile (basename fp))) =
      if deleteCond t (env.abspath fp) (getCollectionInfo env) then 1 else 0) ∧
    ((processFile env t fp ft).1.countP isDelete =
      if deleteCond t (env.abspath fp) (getCollectionInfo env) then 1 else 0) ∧
    deletesPrecedeUpserts (processFile env t fp ft).1 = true := by
  have hft' : (ft = "pdf" || ft = "txt") = true := by
    rcases hft with rfl | rfl <;> simp
  obtain ⟨h1, -⟩ := processFile_trace_eq env t fp ft
  obtain ⟨-, -, hdel, hdelname, hord⟩ := pipelineCore_counts env t fp ft
  rw [h1]
  simp only [hft', if_true]
  refine ⟨?_, ?_, hord _ _⟩
  · rw [List.countP_append, hdelname]
    simp [List.countP_cons]
  · rw [List.countP_append, hdel]
    simp [List.countP_cons, isDelete]

/-- Witness for `processFile_delete_reconciliation`: a re-ingested
previously-successful file over a non-empty collection gets exactly one
delete, ordered before the upsert. -/
theorem processFile_delete_reconciliation_witness :
    (processFile reingestEnv reingestTable "data/texts/a.txt" "txt").1.countP
        (fun ev => decide (ev = Event.deleteByFile (basename "data/texts/a.txt"))) = 1 ∧
    deletesPrecedeUpserts
      (processFile reingestEnv reingestTable "data/texts/a.txt" "txt").1 = true := by
  have h := processFile_delete_reconciliation reingestEnv reingestTable
    "data/texts/a.txt" "txt" (Or.inr rfl)
  have hcond : deleteCond reingestTable (reingestEnv.abspath "data/texts/a.txt")
      (getCollectionInfo reingestEnv) = true := by decide
  have h1 := h.1
  rw [hcond] at h1
  exact ⟨by simpa using h1, h.2.2⟩

/-! ## Claim C3 -/

/-- When the reconciliation delete succeeds (or is skipped), the
pipeline outcome is the outcome of the remaining steps. -/
theorem pipelineCore_outcome_eq_rest (env : Env) (t : Table) (fp ft : String)
    (hdel : deleteCond t (env.abspath fp) (getCollectionInfo env) = true →
      env.clientDelete (basename fp) = .ok ()) :
    (pipelineCore env t fp ft).1 = (pipelineRest env fp ft).1 ∧
    (pipelineCore env t fp ft).2.1 = (pipelineRest env fp ft).2.1 := by
  unfold pipelineCore
  rcases hpr : pipelineRest env fp ft with ⟨st, err, ev⟩
  by_cases hdc : deleteCond t (env.abspath fp) (getCollectionInfo env)
  · simp [hdc, hdel hdc, hpr]
  · simp [hdc, hpr]

/-- An extraction exception yields `("failed", its message)`. -/
theorem pipelineRest_extract_error (env : Env) (fp ft e : String)
    (hex : env.extract ft fp = .error e) :
    pipelineRest env fp ft = ("failed", some e, []) := by
  unfold pipelineRest
  rw [hex]

/-- A chunking exception (raised by the text splitter) yields
`("failed", its message)`. -/
theorem pipelineRest_chunk_error (env : Env) (fp ft e : String)
    (secs : List String) (hex : env.extract ft fp = .ok secs)
    (hne : (secs.isEmpty || secs.all isBlank) = false)
    (hch : chunkDocument env.split fp secs = .error e) :
    pipelineRest env fp ft = ("failed", some e, []) := by
  unfold pipelineRest
  rw [hex]
  simp only [hne, Bool.false_eq_true, if_false]
  rw [hch]

/-- An embedding or upsert exception yields `("failed", its message)`. -/
theorem pipelineRest_upload_error (env : Env) (fp ft e : String)
    (secs : List String) (chunks : List DocumentChunk)
    (hex : env.extract ft fp = .ok secs)
    (hne : (secs.isEmpty || secs.all isBlank) = false)
    (hch : chunkDocument env.split fp secs = .ok chunks)
    (hnec : chunks.isEmpty = false)
    (hup : (uploadChunks env.embed env.clientUpsert chunks).1 = .error e) :
    pipelineRest env fp ft = ("failed", some e,
      (uploadChunks env.embed env.clientUpsert chunks).2) := by
  unfold pipelineRest
  rw [hex]
  simp only [hne, Bool.false_eq_true, if_false]
  rw [hch]
  simp only [hnec, Bool.false_eq_true, if_false]
  rcases hu : uploadChunks env.embed env.clientUpsert chunks with ⟨r, uev⟩
  rw [hu] at hup
  simp at hup
  rw [hup]

/-- Every `pipelineRest` outcome status is terminal. -/
theorem pipelineRest_status (env : Env) (fp ft : String) :
    (pipelineRest env fp ft).1 = "success" ∨ (pipelineRest env fp ft).1 = "failed" ∨
    (pipelineRest env fp ft).1 = "skipped_empty" ∨
    (pipelineRest env fp ft).1 = "skipped_no_chunks" := by
  unfold pipelineRest
  cases hex : env.extract ft fp with
  | error e => simp
  | ok secs =>
      by_cases hempty : secs.isEmpty || secs.all isBlank
      · simp [hempty]
      · simp only [hempty, Bool.false_eq_true, if_false]
        cases hch : chunkDocument env.split fp secs with
        | error e => simp
        | ok chunks =>
            by_cases hce : chunks.isEmpty
            · simp [hce]
            · simp only [hce, Bool.false_eq_true, if_false]
              rcases hup : uploadChunks env.embed env.clientUpsert chunks with ⟨r, uev⟩
              cases r with
              | error e => simp
              | ok n => by_cases hn : n = chunks.length <;> simp [hn]

/-- Every `pipelineCore` outcome status is terminal. -/
theorem pipelineCore_status (env : Env) (t : Table) (fp ft : String) :
    (pipelineCore env t fp ft).1 = "success" ∨ (pipelineCore env t fp ft).1 = "failed" ∨
    (pipelineCore env t fp ft).1 = "skipped_empty" ∨
    (pipelineCore env t fp ft).1 = "skipped_no_chunks" := by
  unfold pipelineCore
  rcases hpr : pipelineRest env fp ft with ⟨st, err, ev⟩
  have := pipelineRest_status env fp ft
  rw [hpr] at this
  by_cases hdc : deleteCond t (env.abspath fp) (getCollectionInfo env)
  · cases hcd : env.clientDelete (basename fp) with
    | error e => simp [hdc, hcd]
    | ok u => simpa [hdc, hcd, hpr] using this
  · simpa [hdc, hpr] using this

/-- C3: per-file failure isolation. In the embedding the per-file
pipeline is a total function — an exception of any stage (modelled as an
`.error` oracle outcome) never escapes the file: it is converted into
the terminal pair `("failed", exception message)`. The tracker's
`update_file_status` is invoked exactly once per processed file — its
event is the last of the file's trace, carrying the terminal outcome,
for every branch — and the recorded status is always one of the four
terminal statuses. Conjuncts 4–6: an exception during extraction,
chunking (the splitter), or embedding/upsert produces exactly status
`"failed"` with that exception's message. -/
theorem processFile_failure_isolation :
    (∀ (env : Env) (t : Table) (fp ft : String),
      (processFile env t fp ft).1.countP isUpdateStatus = 1) ∧
    (∀ (env : Env) (t : Table) (fp ft : String),
      (processFile env t fp ft).1.getLastD .getCollInfo =
        .updateStatus fp (fileOutcome env t fp ft).1 (fileOutcome env t fp ft).2) ∧
    (∀ (env : Env) (t : Table) (fp ft : String),
      (fileOutcome env t fp ft).1 = "success" ∨ (fileOutcome env t fp ft).1 = "failed" ∨
      (fileOutcome env t fp ft).1 = "skipped_empty" ∨
      (fileOutcome env t fp ft).1 = "skipped_no_chunks") ∧
    (∀ (env : Env) (t : Table) (fp ft e : String),
      (deleteCond t (env.abspath fp) (getCollectionInfo env) = true →
        env.clientDelete (basename fp) = .ok ()) →
      (ft = "pdf" ∨ ft = "txt") →
      env.extract ft fp = .error e →
      fileOutcome env t fp ft = ("failed", some e)) ∧
    (∀ (env : Env) (t : Table) (fp ft e : String) (secs : List String),
      (deleteCond t (env.abspath fp) (getCollectionInfo env) = true →
        env.clientDelete (basename fp) = .ok ()) →
      (ft = "pdf" ∨ ft = "txt") →
      env.extract ft fp = .ok secs →
      (secs.isEmpty || secs.all isBlank) = false →
      chunkDocument env.split fp secs = .error e →
      fileOutcome env t fp ft = ("failed", some e)) ∧
    (∀ (env : Env) (t : Table) (fp ft e : String) (secs : List String)
        (chunks : List DocumentChunk),
      (deleteCond t (env.abspath fp) (getCollectionInfo env) = true →
        env.clientDelete (basename fp) = .ok ()) →
      (ft = "pdf" ∨ ft = "txt") →
      env.extract ft fp = .ok secs →
      (secs.isEmpty || secs.all isBlank) = false →
      chunkDocument env.split fp secs = .ok chunks →
      chunks.isEmpty = false →
      (uploadChunks env.embed env.clientUpsert chunks).1 = .error e →
      fileOutcome env t fp ft = ("failed", some e)) := by
  have houtcome : ∀ (env : Env) (t : Table) (fp ft : String),
      (ft = "pdf" || ft = "txt") = true →
      (deleteCond t (env.abspath fp) (getCollectionInfo env) = true →
        env.clientDelete (basename fp) = .ok ()) →
      fileOutcome env t fp ft = ((pipelineRest env fp ft).1, (pipelineRest env fp ft).2.1) := by
    intro env t fp ft hft hdel
    obtain ⟨h1, h2⟩ := pipelineCore_outcome_eq_rest env t fp ft hdel
    simp [fileOutcome, hft, h1, h2]
  refine ⟨?_, ?_, ?_, ?_, ?_, ?_⟩
  · intro env t fp ft
    obtain ⟨h1, -⟩ := processFile_trace_eq env t fp ft
    obtain ⟨-, hupd, -⟩ := pipelineCore_counts env t fp ft
    rw [h1, List.countP_append]
    by_cases hft : (ft = "pdf" || ft = "txt") = true <;>
      simp [hft, hupd, isUpdateStatus, List.countP_cons]
  · intro env t fp ft
    obtain ⟨h1, -⟩ := processFile_trace_eq env t fp ft
    rw [h1]
    simp
  · intro env t fp ft
    by_cases hft : (ft = "pdf" || ft = "txt") = true
    · have := pipelineCore_status env t fp ft
      simpa [fileOutcome, hft] using this
    · simp [fileOutcome, hft]
  · intro env t fp ft e hdel hft hex
    have hft' : (ft = "pdf" || ft = "txt") = true := by
      rcases hft with rfl | rfl <;> simp
    rw [houtcome env t fp ft hft' hdel, pipelineRest_extract_error env fp ft e hex]
  · intro env t fp ft e secs hdel hft hex hne hch
    have hft' : (ft = "pdf" || ft = "txt") = true := by
      rcases hft with rfl | rfl <;> simp
    rw [houtcome env t fp ft hft' hdel,
      pipelineRest_chunk_error env fp ft e secs hex hne hch]
  · intro env t fp ft e secs chunks hdel hft hex hne hch hnec hup
    have hft' : (ft = "pdf" || ft = "txt") = true := by
      rcases hft with rfl | rfl <;> simp
    rw [houtcome env t fp ft hft' hdel,
      pipelineRest_upload_error env fp ft e secs chunks hex hne hch hnec hup]

/-- Witness for `processFile_failure_isolation`: a concrete file whose
extractor raises is recorded `("failed", message)` by its single
status update. -/
theorem processFile_failure_isolation_witness :
    (processFile extractFailEnv Table.empty "data/texts/a.txt" "txt").1.countP
      isUpdateStatus = 1 ∧
    fileOutcome extractFailEnv Table.empty "data/texts/a.txt" "txt" =
      ("failed", some "extraction exploded") :=
  ⟨processFile_failure_isolation.1 extractFailEnv Table.empty "data/texts/a.txt" "txt",
   processFile_failure_isolation.2.2.2.1 extractFailEnv Table.empty "data/texts/a.txt"
     "txt" "extraction exploded" (fun h => by cases h) (Or.inr rfl) rfl⟩

/-! ## Claim C8 -/

/-- `fileOutcome` reduces to the `pipelineRest` outcome when the
processor exists and the reconciliation delete does not raise. -/
theorem fileOutcome_eq_rest (env : Env) (t : Table) (fp ft : String)
    (hft : (ft = "pdf" || ft = "txt") = true)
    (hdel : deleteCond t (env.abspath fp) (getCollectionInfo env) = true →
      env.clientDelete (basename fp) = .ok ()) :
    fileOutcome env t fp ft = ((pipelineRest env fp ft).1, (pipelineRest env fp ft).2.1) := by
  obtain ⟨h1, h2⟩ := pipelineCore_outcome_eq_rest env t fp ft hdel
  simp [fileOutcome, hft, h1, h2]

/-- A successful batch upload reports the submitted count, and the
orchestrator's comparison decides success versus a descriptive
mismatch failure. -/
theorem pipelineRest_upload_ok (env : Env) (fp ft : String)
    (secs : List String) (chunks : List DocumentChunk) (n : Nat)
    (hex : env.extract ft fp = .ok secs)
    (hne : (secs.isEmpty || secs.all isBlank) = false)
    (hch : chunkDocument env.split fp secs = .ok chunks)
    (hnec : chunks.isEmpty = false)
    (hup : (uploadChunks env.embed env.clientUpsert chunks).1 = .ok n) :
    (pipelineRest env fp ft).1 = (if n = chunks.length then "success" else "failed") ∧
    (pipelineRest env fp ft).2.1 =
      (if n = chunks.length then none else
        some ("Mismatch in uploaded chunks count. Expected " ++
          toString chunks.length ++ ", got " ++ toString n ++ ".")) := by
  unfold pipelineRest
  rw [hex]
  simp only [hne, Bool.false_eq_true, if_false]
  rw [hch]
  simp only [hnec, Bool.false_eq_true, if_false]
  rcases hu : uploadChunks env.embed env.clientUpsert chunks with ⟨r, uev⟩
  rw [hu] at hup
  simp at hup
  rw [hup]
  by_cases hn : n = chunks.length <;> simp [hn]

/-- C8: the gateway embeds and upserts a non-empty chunk list in one
batch call and returns the count of points it submitted (first
conjunct: the result equals the length of the point list passed to the
single upsert call, whose trace is one embed event followed by one
upsert event). The orchestrator compares that count against the chunk
count: equal counts record `"success"`, differing counts record
`"failed"` with the descriptive mismatch message (second conjunct). -/
theorem uploadCount_mismatch_check :
    (∀ (e : List String → Except String (List (List Int)))
        (u : List PointStruct → Except String Unit)
        (cs : List DocumentChunk) (vecs : List (List Int)),
      cs.isEmpty = false →
      e (cs.map (·.text)) = .ok vecs →
      u ((vecs.zip cs).map mkPoint) = .ok () →
      (uploadChunks e u cs).1 = .ok ((vecs.zip cs).map mkPoint).length ∧
      (uploadChunks e u cs).2 =
        [.embedTexts (cs.map (·.text)), .upsertPoints ((vecs.zip cs).map mkPoint)]) ∧
    (∀ (env : Env) (t : Table) (fp ft : String) (secs : List String)
        (chunks : List DocumentChunk) (n : Nat),
      (deleteCond t (env.abspath fp) (getCollectionInfo env) = true →
        env.clientDelete (basename fp) = .ok ()) →
      (ft = "pdf" ∨ ft = "txt") →
      env.extract ft fp = .ok secs →
      (secs.isEmpty || secs.all isBlank) = false →
      chunkDocument env.split fp secs = .ok chunks →
      chunks.isEmpty = false →
      (uploadChunks env.embed env.clientUpsert chunks).1 = .ok n →
      fileOutcome env t fp ft =
        ((if n = chunks.length then "success" else "failed"),
         (if n = chunks.length then none else
           some ("Mismatch in uploaded chunks count. Expected " ++
             toString chunks.length ++ ", got " ++ toString n ++ ".")))) := by
  constructor
  · intro e u cs vecs hce he hu
    unfold uploadChunks
    simp only [hce, Bool.false_eq_true, if_false]
    simp [he, hu]
  · intro env t fp ft secs chunks n hdel hft hex hne hch hnec hup
    have hft' : (ft = "pdf" || ft = "txt") = true := by
      rcases hft with rfl | rfl <;> simp
    obtain ⟨h1, h2⟩ :=
      pipelineRest_upload_ok env fp ft secs chunks n hex hne hch hnec hup
    rw [fileOutcome_eq_rest env t fp ft hft' hdel, h1, h2]

/-- Witness for `uploadCount_mismatch_check`: the healthy one-chunk file
is recorded `("success", none)` because the upload reports exactly one
point. -/
theorem uploadCount_mismatch_check_witness :
    fileOutcome okEnv Table.empty "data/texts/a.txt" "txt" = ("success", none) := by
  have h := uploadCount_mismatch_check.2 okEnv Table.empty "data/texts/a.txt" "txt"
    ["Hello world."]
    [⟨"Hello world.", ⟨"a.txt", "txt", 0, 12, none, "a.txt_0"⟩⟩] 1
    (fun hc => by cases hc) (Or.inr rfl) rfl (by decide) rfl rfl
    (by set_option maxRecDepth 100000 in exact rfl)
  simpa using h

/-! ## Claim C9 -/

/-- Field facts for the chunks of one section. -/
theorem sectionChunks_mem (fn ftp : String) (multi : Bool) (i : Nat)
    (pieces : List String) :
    ∀ c ∈ sectionChunks fn ftp multi i pieces,
      c.metadata.source_file = fn ∧ c.metadata.file_type = ftp ∧
      c.metadata.page_number.isSome = multi ∧
      (match c.metadata.page_number with
       | some p => c.metadata.chunk_id =
           c.metadata.source_file ++ "_p" ++ toString p ++ "_" ++
             toString c.metadata.chunk_index
       | none => c.metadata.chunk_id =
           c.metadata.source_file ++ "_" ++ toString c.metadata.chunk_index) := by
  intro c hc
  obtain ⟨ji, hji, rfl⟩ := List.mem_map.mp hc
  cases multi <;> exact ⟨rfl, rfl, rfl, rfl⟩

/-- Field facts for all chunks produced by the section loop. -/
theorem chunkSections_mem (split : String → Except String (List String))
    (fn ftp : String) (multi : Bool) :
    ∀ (secs : List String) (i : Nat) (chunks : List DocumentChunk),
      chunkSections split fn ftp multi i secs = .ok chunks →
      ∀ c ∈ chunks,
        c.metadata.source_file = fn ∧ c.metadata.file_type = ftp ∧
        c.metadata.page_number.isSome = multi ∧
        (match c.metadata.page_number with
         | some p => c.metadata.chunk_id =
             c.metadata.source_file ++ "_p" ++ toString p ++ "_" ++
               toString c.metadata.chunk_index
         | none => c.metadata.chunk_id =
             c.metadata.source_file ++ "_" ++ toString c.metadata.chunk_index) := by
  intro secs
  induction secs with
  | nil =>
      intro i chunks h c hc
      simp only [chunkSections] at h
      cases h
      cases hc
  | cons sec rest ih =>
      intro i chunks h c hc
      simp only [chunkSections] at h
      by_cases hb : isBlank sec
      · rw [if_pos hb] at h
        exact ih (i + 1) chunks h c hc
      · rw [if_neg hb] at h
        cases hsp : split sec with
        | error e => rw [hsp] at h; cases h
        | ok pieces =>
            rw [hsp] at h
            cases hrec : chunkSections split fn ftp multi (i + 1) rest with
            | error e => rw [hrec] at h; cases h
            | ok more =>
                rw [hrec] at h
                cases h
                rcases List.mem_append.mp hc with hl | hr
                · exact sectionChunks_mem fn ftp multi i pieces c hl
                · exact ih (i + 1) more hrec c hr

/-- C9: every point uploaded to the store carries a payload holding the
literal chunk text under the added `"text"` field together with the
chunk's metadata — the source file name, the file-type tag, the 0-based
chunk index, the derived chunk-identifier string, and (whenever the
document has more than one section) the 1-based section/page number —
and the point's id is the deterministic key of that metadata. First
conjunct: the metadata `chunk_document` attaches. Second conjunct: every
point in the single upsert call's list reproduces some chunk's text and
metadata verbatim. -/
theorem payload_contains_text_and_metadata :
    (∀ (split : String → Except String (List String)) (fp : String)
        (secs : List String) (chunks : List DocumentChunk),
      chunkDocument split fp secs = .ok chunks →
      ∀ c ∈ chunks,
        c.metadata.source_file = basename fp ∧
        c.metadata.file_type = extOf (basename fp) ∧
        (secs.length > 1 → c.metadata.page_number.isSome = true) ∧
        (match c.metadata.page_number with
         | some p => c.metadata.chunk_id =
             c.metadata.source_file ++ "_p" ++ toString p ++ "_" ++
               toString c.metadata.chunk_index
         | none => c.metadata.chunk_id =
             c.metadata.source_file ++ "_" ++ toString c.metadata.chunk_index)) ∧
    (∀ (e : List String → Except String (List (List Int)))
        (u : List PointStruct → Except String Unit)
        (cs : List DocumentChunk) (pts : List PointStruct),
      Event.upsertPoints pts ∈ (uploadChunks e u cs).2 →
      ∀ pt ∈ pts, ∃ c ∈ cs,
        pt.payload.text = c.text ∧ pt.payload.meta = c.metadata ∧
        pt.id = deriveKey c.metadata.source_file c.metadata.page_number
          c.metadata.chunk_index) := by
  constructor
  · intro split fp secs chunks h c hc
    have hmem := chunkSections_mem split (basename fp) (extOf (basename fp))
      (decide (secs.length > 1) ||
        (decide (secs.length = 1) && hasDoubleNewline (secs.getD 0 "") &&
          decide (extOf (basename fp) = "pdf")))
      secs 0 chunks h c hc
    refine ⟨hmem.1, hmem.2.1, ?_, hmem.2.2.2⟩
    intro hlen
    rw [hmem.2.2.1]
    simp [hlen]
  · intro e u cs pts hmem pt hpt
    unfold uploadChunks at hmem
    by_cases hce : cs.isEmpty
    · simp [hce] at hmem
    · simp only [hce, Bool.false_eq_true, if_false] at hmem
      cases he : e (cs.map (·.text)) with
      | error err => rw [he] at hmem; simp at hmem
      | ok vecs =>
          have hpts : pts = (vecs.zip cs).map mkPoint := by
            cases hu : u ((vecs.zip cs).map mkPoint) <;>
              simp [he, hu] at hmem <;> exact hmem
          subst hpts
          obtain ⟨vc, hvc, rfl⟩ := List.mem_map.mp hpt
          have hcm : vc.2 ∈ cs := by
            have : (vc.1, vc.2) ∈ vecs.zip cs := by simpa using hvc
            exact (List.of_mem_zip this).2
          exact ⟨vc.2, hcm, rfl, rfl, rfl⟩

/-- Witness for `payload_contains_text_and_metadata` on the concrete
one-chunk document. -/
theorem payload_contains_text_and_metadata_witness :
    (⟨"Hello world.", ⟨"a.txt", "txt", 0, 12, none, "a.txt_0"⟩⟩ :
        DocumentChunk).metadata.source_file = basename "data/texts/a.txt" ∧
    (⟨"Hello world.", ⟨"a.txt", "txt", 0, 12, none, "a.txt_0"⟩⟩ :
        DocumentChunk).metadata.chunk_id = "a.txt" ++ "_" ++ toString 0 := by
  have h := payload_contains_text_and_metadata.1 (fun s => .ok [s])
    "data/texts/a.txt" ["Hello world."]
    [⟨"Hello world.", ⟨"a.txt", "txt", 0, 12, none, "a.txt_0"⟩⟩]
    rfl
    ⟨"Hello world.", ⟨"a.txt", "txt", 0, 12, none, "a.txt_0"⟩⟩
    (List.mem_singleton.mpr rfl)
  exact ⟨h.1, h.2.2.2⟩

/-! ## Claim C6 -/

/-- A file that exists, has a `"success"` record, and whose recorded
`last_modified` is at least the current mtime, is not re-ingested and
leaves the tracker untouched. -/
theorem shouldIngest_false_of_recent_success (abspath : String → String)
    (fs : FSModel) (t : Table) (p : String) (m : Int) (r : FileInfo)
    (hfs : fs p = some m) (hrec : t (abspath p) = some r)
    (hst : r.status = "success") (hlm : m ≤ r.last_modified) :
    shouldIngest abspath fs t p = (false, t) := by
  simp only [shouldIngest, hfs, hrec]
  rw [if_neg (by simp [hst]), if_neg (not_lt.mpr hlm)]

/-- If `should_ingest` answers `false` for an existing file, the tracker
is unchanged and the record is a recent success. -/
theorem shouldIngest_false_inversion (abspath : String → String) (fs : FSModel)
    (t : Table) (p : String) (m : Int) (hfs : fs p = some m)
    (hf : (shouldIngest abspath fs t p).1 = false) :
    (shouldIngest abspath fs t p).2 = t ∧
    ∃ r, t (abspath p) = some r ∧ r.status = "success" ∧ m ≤ r.last_modified := by
  cases hrec : t (abspath p) with
  | none =>
      simp only [shouldIngest, hfs, hrec] at hf
      simp at hf
  | some r' =>
      simp only [shouldIngest, hfs, hrec] at hf ⊢
      by_cases h1 : r'.status ≠ "success"
      · simp [h1] at hf
      · by_cases h2 : m > r'.last_modified
        · simp [h1, h2] at hf
        · rw [if_neg h1, if_neg h2]
          exact ⟨rfl, r', rfl, not_not.mp h1, not_lt.mp h2⟩

/-- `should_ingest` only ever modifies the queried key. -/
theorem shouldIngest_other (abspath : String → String) (fs : FSModel)
    (t : Table) (p k : String) (hk : k ≠ abspath p) :
    (shouldIngest abspath fs t p).2 k = t k := by
  simp only [shouldIngest]
  cases hfs : fs p with
  | none => simp [hk]
  | some m =>
      cases hrec : t (abspath p) with
      | none => rfl
      | some r =>
          by_cases h1 : r.status ≠ "success"
          · simp [h1]
          · by_cases h2 : m > r.last_modified <;> simp [h1, h2]

/-- `update_file_status` only modifies the path's absolute key. -/
theorem updateFileStatus_other (abspath : String → String) (fs : FSModel)
    (now : Int) (t : Table) (p st : String) (err : Option String) (k : String)
    (hk : k ≠ abspath p) :
    updateFileStatus abspath fs now t p st err k = t k := by
  unfold updateFileStatus
  simp [hk]

/-- `processFile` only modifies the file's absolute key. -/
theorem processFile_table_other (env : Env) (t : Table) (fp ft k : String)
    (hk : k ≠ env.abspath fp) :
    (processFile env t fp ft).2 k = t k := by
  obtain ⟨-, h2⟩ := processFile_trace_eq env t fp ft
  rw [h2]
  exact updateFileStatus_other env.abspath env.fs env.now t fp _ _ k hk

/-- The record `processFile` writes for its own file: current mtime
(falling back to now) and the terminal outcome. -/
theorem processFile_table_self (env : Env) (t : Table) (fp ft : String) :
    (processFile env t fp ft).2 (env.abspath fp) =
      some { file_path := env.abspath fp,
             last_modified := (env.fs fp).getD env.now,
             ingested_at := env.now,
             status := (fileOutcome env t fp ft).1,
             error_message := (fileOutcome env t fp ft).2 } := by
  obtain ⟨-, h2⟩ := processFile_trace_eq env t fp ft
  rw [h2]
  unfold updateFileStatus
  simp

/-- One scan iteration only modifies the handled file's absolute key. -/
theorem scanStep_table_other (env : Env) (acc : List Event × Table)
    (pf : String × String) (k : String) (hk : k ≠ env.abspath pf.1) :
    (scanStep env acc pf).2 k = acc.2 k := by
  obtain ⟨ev, t⟩ := acc
  simp only [scanStep]
  rcases hsi : shouldIngest env.abspath env.fs t pf.1 with ⟨b, t1⟩
  have hother : t1 k = t k := by
    have h := shouldIngest_other env.abspath env.fs t pf.1 k hk
    rw [hsi] at h
    exact h
  cases b
  · simpa using hother
  · rcases hpr : processFile env t1 pf.1 pf.2 with ⟨ev2, t2⟩
    have h := processFile_table_other env t1 pf.1 pf.2 k hk
    rw [hpr] at h
    simp [hpr, h, hother]

/-- After one scan iteration over an existing file, any `"success"`
record at the file's key has `last_modified ≥` the current mtime. -/
theorem scanStep_self_post (env : Env) (acc : List Event × Table)
    (pf : String × String) (m : Int) (hfs : env.fs pf.1 = some m) :
    ∀ r, (scanStep env acc pf).2 (env.abspath pf.1) = some r →
      r.status = "success" → m ≤ r.last_modified := by
  obtain ⟨ev, t⟩ := acc
  intro r hr hst
  simp only [scanStep] at hr
  rcases hsi : shouldIngest env.abspath env.fs t pf.1 with ⟨b, t1⟩
  rw [hsi] at hr
  cases b with
  | false =>
      have hf : (shouldIngest env.abspath env.fs t pf.1).1 = false := by
        rw [hsi]
      obtain ⟨ht1, r', hrec, hst', hlm'⟩ :=
        shouldIngest_false_inversion env.abspath env.fs t pf.1 m hfs hf
      rw [hsi] at ht1
      simp only [if_false, Bool.false_eq_true] at hr
      rw [show t1 = t from ht1] at hr
      rw [hrec] at hr
      cases hr
      exact hlm'
  | true =>
      simp only [if_true] at hr
      rcases hpr : processFile env t1 pf.1 pf.2 with ⟨ev2, t2⟩
      rw [hpr] at hr
      have hself := processFile_table_self env t1 pf.1 pf.2
      rw [hpr] at hself
      simp only at hr hself
      rw [hself] at hr
      cases hr
      simp [hfs]

/-- The recent-success property at one file's key is preserved by
folding the scan over any file list (given injective `abspath`). -/
theorem foldl_scanStep_preserves (env : Env)
    (hinj : ∀ a b, env.abspath a = env.abspath b → a = b)
    (p : String) (m : Int) (hfs : env.fs p = some m) :
    ∀ (files : List (String × String)) (acc : List Event × Table),
      (∀ r, acc.2 (env.abspath p) = some r → r.status = "success" →
        m ≤ r.last_modified) →
      (∀ r, (files.foldl (scanStep env) acc).2 (env.abspath p) = some r →
        r.status = "success" → m ≤ r.last_modified) := by
  intro files
  induction files with
  | nil => intro acc h; exact h
  | cons q rest ih =>
      intro acc h
      rw [List.foldl_cons]
      apply ih
      intro r hr hst
      by_cases hq : env.abspath q.1 = env.abspath p
      · have hq1 : q.1 = p := hinj _ _ hq
        rw [← hq] at hr
        exact scanStep_self_post env acc q m (by rw [hq1]; exact hfs) r hr hst
      · have hother := scanStep_table_other env acc q (env.abspath p) ?_
        · rw [hother] at hr
          exact h r hr hst
        · exact fun hc => hq hc.symm

/-- After a scan fold, every processed existing file's key satisfies the
recent-success property. -/
theorem foldl_scanStep_member_post (env : Env)
    (hinj : ∀ a b, env.abspath a = env.abspath b → a = b) :
    ∀ (files : List (String × String)) (acc : List Event × Table)
      (pf : String × String) (m : Int),
      pf ∈ files → env.fs pf.1 = some m →
      ∀ r, (files.foldl (scanStep env) acc).2 (env.abspath pf.1) = some r →
        r.status = "success" → m ≤ r.last_modified := by
  intro files
  induction files with
  | nil => intro acc pf m hmem; cases hmem
  | cons q rest ih =>
      intro acc pf m hmem hfs
      rw [List.foldl_cons]
      rcases List.mem_cons.mp hmem with heq | hmem'
      · subst heq
        exact foldl_scanStep_preserves env hinj pf.1 m hfs rest (scanStep env acc pf)
          (scanStep_self_post env acc pf m hfs)
      · exact ih (scanStep env acc q) pf m hmem' hfs

/-- A scan over files that are all recent successes is a no-op. -/
theorem foldl_scanStep_noop (env : Env) :
    ∀ (files : List (String × String)) (acc : List Event × Table),
      (∀ pf ∈ files, ∃ m r, env.fs pf.1 = some m ∧
        acc.2 (env.abspath pf.1) = some r ∧
        r.status = "success" ∧ m ≤ r.last_modified) →
      files.foldl (scanStep env) acc = acc := by
  intro files
  induction files with
  | nil => intro acc _; rfl
  | cons q rest ih =>
      intro acc h
      obtain ⟨m, r, hfs, hrec, hst, hlm⟩ := h q (by simp)
      have hstep : scanStep env acc q = acc := by
        obtain ⟨ev, t⟩ := acc
        simp only [scanStep]
        rw [shouldIngest_false_of_recent_success env.abspath env.fs t q.1 m r hfs
          hrec hst hlm]
        simp
      rw [List.foldl_cons, hstep]
      exact ih acc (fun pf hpf => h pf (by simp [hpf]))

/-- C6 counterexample: two successive scans over an unchanged filesystem
(the two environments share `fs`, `abspath` and both directory listings
definitionally) where the store's upsert raises transiently during the
first run. The file is recorded `"failed"`, so the second run re-ingests
it and performs one upsert — refuting "zero upsert calls during the
second run". -/
theorem runScan_twice_upsert_counterexample :
    upsertFailEnv.fs = okEnv.fs ∧
    upsertFailEnv.abspath = okEnv.abspath ∧
    upsertFailEnv.pdfFiles = okEnv.pdfFiles ∧
    upsertFailEnv.txtFiles = okEnv.txtFiles ∧
    ((runScan okEnv (runScan upsertFailEnv Table.empty).2).1).countP isUpsert = 1 := by
  refine ⟨rfl, rfl, rfl, rfl, ?_⟩
  set_option maxRecDepth 1000000 in decide

/-- C6 (amended): if after the first run every scanned file's tracker
record (at its absolute path) has status `"success"`, then a second scan
over the unchanged filesystem performs zero upsert calls and zero delete
calls, and `should_ingest` answers `false` for every scanned file.
(The hypotheses: the two runs share the filesystem, path
canonicalization and directory listings; `abspath` is injective; every
scanned file exists on disk.) -/
theorem runScan_idempotent_on_success (env1 env2 : Env) (t0 : Table)
    (hfs : env2.fs = env1.fs) (hab : env2.abspath = env1.abspath)
    (hpdf : env2.pdfFiles = env1.pdfFiles) (htxt : env2.txtFiles = env1.txtFiles)
    (hinj : ∀ a b, env1.abspath a = env1.abspath b → a = b)
    (hex : ∀ pf ∈ scanFiles env1, env1.fs pf.1 ≠ none)
    (hsucc : ∀ pf ∈ scanFiles env1,
      ((runScan env1 t0).2 (env1.abspath pf.1)).map FileInfo.status = some "success") :
    ((runScan env2 (runScan env1 t0).2).1).countP isUpsert = 0 ∧
    ((runScan env2 (runScan env1 t0).2).1).countP isDelete = 0 ∧
    ∀ pf ∈ scanFiles env2,
      (shouldIngest env2.abspath env2.fs ((runScan env1 t0).2) pf.1).1 = false := by
  have hscan2 : scanFiles env2 = scanFiles env1 := by
    simp [scanFiles, hpdf, htxt]
  have hT1 : (runScan env1 t0).2 =
      ((scanFiles env1).foldl (scanStep env1) ([Event.getCollInfo], t0)).2 := rfl
  -- the per-file recent-success package after run 1
  have hpkg : ∀ pf ∈ scanFiles env1, ∃ m r, env1.fs pf.1 = some m ∧
      (runScan env1 t0).2 (env1.abspath pf.1) = some r ∧
      r.status = "success" ∧ m ≤ r.last_modified := by
    intro pf hpf
    cases hm : env1.fs pf.1 with
    | none => exact absurd hm (hex pf hpf)
    | some m =>
        have hs := hsucc pf hpf
        rcases Option.map_eq_some'.mp hs with ⟨r, hr, hst⟩
        refine ⟨m, r, rfl, hr, hst, ?_⟩
        rw [hT1] at hr
        exact foldl_scanStep_member_post env1 hinj (scanFiles env1)
          ([Event.getCollInfo], t0) pf m hpf hm r hr hst
  -- transport the package to env2's fields
  have hpkg2 : ∀ pf ∈ scanFiles env2, ∃ m r, env2.fs pf.1 = some m ∧
      (runScan env1 t0).2 (env2.abspath pf.1) = some r ∧
      r.status = "success" ∧ m ≤ r.last_modified := by
    rw [hscan2, hfs, hab]
    exact hpkg
  have hnoop := foldl_scanStep_noop env2 (scanFiles env2)
    ([Event.getCollInfo], (runScan env1 t0).2) hpkg2
  have htr : (runScan env2 (runScan env1 t0).2).1 =
      ((scanFiles env2).foldl (scanStep env2)
        ([Event.getCollInfo], (runScan env1 t0).2)).1 ++ [Event.getCollInfo] := rfl
  refine ⟨?_, ?_, ?_⟩
  · rw [htr, hnoop]; rfl
  · rw [htr, hnoop]; rfl
  · intro pf hpf
    obtain ⟨m, r, hm, hr, hst, hlm⟩ := hpkg2 pf hpf
    rw [shouldIngest_false_of_recent_success env2.abspath env2.fs
      ((runScan env1 t0).2) pf.1 m r hm hr hst hlm]

/-- Witness for `runScan_idempotent_on_success`: the healthy environment
run twice from an empty tracker. -/
theorem runScan_idempotent_on_success_witness :
    ((runScan okEnv (runScan okEnv Table.empty).2).1).countP isUpsert = 0 ∧
    ((runScan okEnv (runScan okEnv Table.empty).2).1).countP isDelete = 0 := by
  have h := runScan_idempotent_on_success okEnv okEnv Table.empty rfl rfl rfl rfl
    (fun a b hab => hab) (by decide)
    (by set_option maxRecDepth 1000000 in decide)
  exact ⟨h.1, h.2.1⟩

end KnowledgeBase
